import Mathlib

/-!
Shallow embedding of the collaborative-spreadsheet mutation engine of the
`openspace` repository (FastAPI/SQLAlchemy service), together with proofs
about the embedded operations.

Sources embedded here:
* `src/app/routers/cells.py` — cell patches (`_apply_patches`), structural
  row insert/delete (`insert_rows`, `delete_rows`) and sort (`sort_sheet`);
* `src/app/routers/text_documents.py` — optimistic-concurrency save
  (`save_doc`);
* `src/app/ws_hub.py` — the per-room broadcast hub (`WSHub.broadcast`);
* `src/app/routers/websocket.py` — the WebSocket batch-patch handler
  (`_handle_batch_patch`).

Modelling conventions: SQL rows become Lean structures, the cell table of
one sheet becomes a `List Cell`, SQL `UPDATE ... WHERE` statements become
`List.map` with the same condition, and deletes become `List.filter`.
Row/column indices are `Int` because the two-phase re-key trick in the
source temporarily stores negative indices.  Python `float` sort keys are
modelled by the exact rational value of the parsed decimal literal;
a comparison that would raise `TypeError` in Python is modelled as `none`.
Sheet metadata (merge ranges, row heights) is modelled post-JSON-parse, as
the structured values the routes operate on.
-/

namespace OpenSpace

/-- `MAX_ROWS` from `cells.py`. -/
def MAX_ROWS : Int := 10000

/-- `MAX_COLS` from `cells.py`. -/
def MAX_COLS : Int := 16384

/-- One row of the `WorkspaceCell` table restricted to a single sheet
(the sheet id is implicit: every operation modelled here filters on one
`sheet_id` first). -/
structure Cell where
  row_index : Int
  col_index : Int
  value : Option String
  style : Option String
  comment : Option String
  hyperlink : Option String
  updated_by : String
  updated_at : Int
deriving DecidableEq

/-- The cell table of one sheet. -/
abbrev Grid := List Cell

/-- The value stored at a coordinate, if a cell exists there
(coordinate-to-value mapping of the grid). -/
def cellValueAt (g : Grid) (r c : Int) : Option (Option String) :=
  (g.find? (fun x => decide (x.row_index = r ∧ x.col_index = c))).map (fun x => x.value)

/-- Replace a cell's row index, keeping every other column of the record. -/
def setRow (c : Cell) (r : Int) : Cell := { c with row_index := r }

/-- An `UPDATE ... SET row_index = f(row_index) WHERE <condition on row_index>`
over the sheet's cell table: every cell's row index goes through `f`
(`f` is the identity where the `WHERE` clause does not match). -/
def mapRow (f : Int → Int) (g : Grid) : Grid :=
  g.map (fun c => setRow c (f c.row_index))

/-- `insert_rows` clamp: `count = max(1, min(body.count, 100))`. -/
def clampInsertCount (c : Int) : Int := max 1 (min c 100)

/-- Cell-table effect of `insert_rows` after the count has been clamped: the
two-phase negative-offset shift from `cells.py` —
`UPDATE ... WHERE row_index >= insert_at SET row_index = row_index - 100000`
followed by
`UPDATE ... WHERE row_index < -90000 SET row_index = row_index + 100000 + count`. -/
def insertRowsCells (insertAt count : Int) (g : Grid) : Grid :=
  mapRow (fun r => if r < -90000 then r + 100000 + count else r)
    (mapRow (fun r => if insertAt ≤ r then r - 100000 else r) g)

/-- Cell-table effect of the `insert_rows` endpoint, including the clamp of
the requested count. -/
def insertRows (rowIndex count : Int) (g : Grid) : Grid :=
  insertRowsCells rowIndex (clampInsertCount count) g

/-- Sorted-set insertion used to model Python's `sorted(set(...))`. -/
def insertSortedNoDup (a : Int) : List Int → List Int
  | [] => [a]
  | b :: l => if a < b then a :: b :: l else if a = b then b :: l else b :: insertSortedNoDup a l

/-- `sorted(set(l))`: the distinct elements of `l` in increasing order. -/
def dedupSorted (l : List Int) : List Int := l.foldr insertSortedNoDup []

/-- Number of deleted indices strictly below row `r`:
`sum(1 for d in indices if d < r)` in `delete_rows`. -/
def countLT (indices : List Int) (r : Int) : Int :=
  ((indices.filter (fun d => decide (d < r))).length : Int)

/-- Body of `delete_rows` once `indices = sorted(set(body.row_indices))` is
computed: an empty list returns early with no change; otherwise the cells of
the named rows are deleted, cells strictly below the first deleted row are
parked at `row_index - 100000`
(`UPDATE ... WHERE row_index > first_deleted SET row_index = row_index - 100000`),
and the parked cells (`row_index < -90000`) move to
`original_row - |deleted rows strictly below original_row|`. -/
def deleteRowsCellsAux : List Int → Grid → Grid
  | [], g => g
  | firstDeleted :: rest, g =>
    mapRow (fun r => if r < -90000 then
        (r + 100000) - countLT (firstDeleted :: rest) (r + 100000) else r)
      (mapRow (fun r => if firstDeleted < r then r - 100000 else r)
        (g.filter (fun c => decide (c.row_index ∉ firstDeleted :: rest))))

/-- Cell-table effect of the `delete_rows` endpoint. -/
def deleteRowsCells (rowIndices : List Int) (g : Grid) : Grid :=
  deleteRowsCellsAux (dedupSorted rowIndices) g

/-- The `count` consecutive row indices starting at `rowIndex` — the rows a
caller deletes to undo an insert of `count` rows at `rowIndex`. -/
def consecRows (rowIndex count : Int) : List Int :=
  (List.range count.toNat).map (fun i : Nat => rowIndex + (i : Int))

@[simp] theorem setRow_row_index (c : Cell) (r : Int) : (setRow c r).row_index = r := rfl

@[simp] theorem setRow_col_index (c : Cell) (r : Int) : (setRow c r).col_index = c.col_index := rfl

theorem setRow_self (c : Cell) : setRow c c.row_index = c := rfl

theorem setRow_setRow (c : Cell) (r r' : Int) : setRow (setRow c r) r' = setRow c r' := rfl

theorem mapRow_mapRow (f f' : Int → Int) (g : Grid) :
    mapRow f (mapRow f' g) = mapRow (fun r => f (f' r)) g := by
  unfold mapRow
  rw [List.map_map]
  rfl

theorem mapRow_congr {f f' : Int → Int} (g : Grid)
    (h : ∀ c ∈ g, f c.row_index = f' c.row_index) : mapRow f g = mapRow f' g := by
  unfold mapRow
  exact List.map_congr_left (fun c hc => by rw [h c hc])

theorem mapRow_id (g : Grid) : mapRow (fun r => r) g = g := by
  unfold mapRow
  rw [List.map_congr_left (fun c _ => setRow_self c)]
  exact List.map_id g

theorem mem_mapRow {g : Grid} {f : Int → Int} {c : Cell} (hc : c ∈ mapRow f g) :
    ∃ c0 ∈ g, c = setRow c0 (f c0.row_index) := by
  obtain ⟨c0, hc0, rfl⟩ := List.mem_map.mp hc
  exact ⟨c0, hc0, rfl⟩

theorem mem_insertSortedNoDup (a x : Int) :
    ∀ l : List Int, x ∈ insertSortedNoDup a l ↔ x = a ∨ x ∈ l := by
  intro l
  induction l with
  | nil => simp [insertSortedNoDup]
  | cons b t ih =>
    unfold insertSortedNoDup
    by_cases h1 : a < b
    · rw [if_pos h1]
      simp [List.mem_cons]
    · rw [if_neg h1]
      by_cases h2 : a = b
      · rw [if_pos h2]
        subst h2
        simp only [List.mem_cons]
        tauto
      · rw [if_neg h2]
        simp only [List.mem_cons, ih]
        tauto

theorem sorted_insertSortedNoDup (a : Int) :
    ∀ l : List Int, l.Pairwise (· < ·) → (insertSortedNoDup a l).Pairwise (· < ·) := by
  intro l
  induction l with
  | nil => intro _; simp [insertSortedNoDup]
  | cons b t ih =>
    intro hs
    obtain ⟨hb, ht⟩ := List.pairwise_cons.mp hs
    by_cases h1 : a < b
    · simp only [insertSortedNoDup, if_pos h1]
      refine List.pairwise_cons.mpr ⟨?_, hs⟩
      intro x hx
      rcases List.mem_cons.mp hx with rfl | hx
      · exact h1
      · exact lt_trans h1 (hb x hx)
    · by_cases h2 : a = b
      · simpa [insertSortedNoDup, if_neg h1, if_pos h2] using hs
      · simp only [insertSortedNoDup, if_neg h1, if_neg h2]
        refine List.pairwise_cons.mpr ⟨?_, ih ht⟩
        intro x hx
        rcases (mem_insertSortedNoDup a x t).mp hx with rfl | hx
        · omega
        · exact hb x hx

theorem sorted_dedupSorted (l : List Int) : (dedupSorted l).Pairwise (· < ·) := by
  induction l with
  | nil => simp [dedupSorted]
  | cons a t ih => exact sorted_insertSortedNoDup a (dedupSorted t) ih

theorem mem_dedupSorted (x : Int) : ∀ l : List Int, x ∈ dedupSorted l ↔ x ∈ l := by
  intro l
  induction l with
  | nil => simp [dedupSorted]
  | cons a t ih =>
    show x ∈ insertSortedNoDup a (dedupSorted t) ↔ _
    rw [mem_insertSortedNoDup]
    simp [List.mem_cons, ih]

theorem insertSortedNoDup_of_forall_lt (a : Int) :
    ∀ l : List Int, (∀ x ∈ l, a < x) → insertSortedNoDup a l = a :: l := by
  intro l h
  cases l with
  | nil => rfl
  | cons b t => simp [insertSortedNoDup, if_pos (h b (List.mem_cons_self b t))]

theorem dedupSorted_eq_self : ∀ l : List Int, l.Pairwise (· < ·) → dedupSorted l = l := by
  intro l
  induction l with
  | nil => intro _; rfl
  | cons a t ih =>
    intro hs
    obtain ⟨ha, ht⟩ := List.pairwise_cons.mp hs
    show insertSortedNoDup a (dedupSorted t) = a :: t
    rw [ih ht]
    exact insertSortedNoDup_of_forall_lt a t ha

/-- The two-phase re-key of `delete_rows` computes, for every grid whose rows
respect the `[0, MAX_ROWS)` bound, exactly "drop the deleted rows, subtract
from each survivor the number of deleted rows strictly below it". -/
theorem deleteRowsCellsAux_eq (indices : List Int) (g : Grid)
    (hs : indices.Pairwise (· < ·))
    (hb : ∀ c ∈ g, 0 ≤ c.row_index ∧ c.row_index < MAX_ROWS) :
    deleteRowsCellsAux indices g =
      mapRow (fun r => r - countLT indices r)
        (g.filter (fun c => decide (c.row_index ∉ indices))) := by
  cases indices with
  | nil =>
    show g = mapRow _ (g.filter _)
    have hf : g.filter (fun c => decide (c.row_index ∉ ([] : List Int))) = g := by
      apply List.filter_eq_self.mpr
      intro c _
      simp
    rw [hf]
    have hz : ∀ c ∈ g, c.row_index - countLT [] c.row_index = c.row_index := by
      intro c _
      simp [countLT]
    rw [@mapRow_congr (fun r => r - countLT [] r) (fun r => r) g hz, mapRow_id]
  | cons firstDeleted rest =>
    unfold deleteRowsCellsAux
    dsimp only
    rw [mapRow_mapRow]
    apply mapRow_congr
    intro c hc
    dsimp only
    rw [List.mem_filter] at hc
    obtain ⟨hcg, hcd⟩ := hc
    have hnot : c.row_index ∉ firstDeleted :: rest := of_decide_eq_true hcd
    obtain ⟨h0, hlt⟩ := hb c hcg
    have hlt' : c.row_index < 10000 := by simpa [MAX_ROWS] using hlt
    obtain ⟨hfirst, _⟩ := List.pairwise_cons.mp hs
    by_cases hgt : firstDeleted < c.row_index
    · rw [if_pos hgt]
      have h1 : c.row_index - 100000 < -90000 := by omega
      rw [if_pos h1]
      have h2 : c.row_index - 100000 + 100000 = c.row_index := by omega
      rw [h2]
    · rw [if_neg hgt]
      have h2 : ¬(c.row_index < -90000) := by omega
      rw [if_neg h2]
      have hne : c.row_index ≠ firstDeleted := fun h =>
        hnot (h ▸ List.mem_cons_self firstDeleted rest)
      have hz : countLT (firstDeleted :: rest) c.row_index = 0 := by
        unfold countLT
        rw [List.filter_eq_nil_iff.mpr ?_]
        · rfl
        · intro d hd
          simp only [decide_eq_true_eq, not_lt]
          rcases List.mem_cons.mp hd with rfl | hd
          · omega
          · have := hfirst d hd
            omega
      rw [hz]
      omega

/-- Same statement at the endpoint level, with `sorted(set(...))` spelled out. -/
theorem deleteRowsCells_eq (rowIndices : List Int) (g : Grid)
    (hb : ∀ c ∈ g, 0 ≤ c.row_index ∧ c.row_index < MAX_ROWS) :
    deleteRowsCells rowIndices g =
      mapRow (fun r => r - countLT (dedupSorted rowIndices) r)
        (g.filter (fun c => decide (c.row_index ∉ dedupSorted rowIndices))) :=
  deleteRowsCellsAux_eq (dedupSorted rowIndices) g (sorted_dedupSorted rowIndices) hb

/-- The two-phase re-key of `insert_rows` is, on a grid whose rows respect the
`[0, MAX_ROWS)` bound, exactly "shift every row at or below the insertion
point down by `count`". -/
theorem insertRowsCells_eq (insertAt count : Int) (g : Grid)
    (hb : ∀ c ∈ g, 0 ≤ c.row_index ∧ c.row_index < MAX_ROWS) :
    insertRowsCells insertAt count g =
      mapRow (fun r => if insertAt ≤ r then r + count else r) g := by
  unfold insertRowsCells
  rw [mapRow_mapRow]
  apply mapRow_congr
  intro c hc
  obtain ⟨h0, hlt⟩ := hb c hc
  have hlt' : c.row_index < 10000 := by simpa [MAX_ROWS] using hlt
  by_cases hge : insertAt ≤ c.row_index
  · rw [if_pos hge]
    have h1 : c.row_index - 100000 < -90000 := by omega
    rw [if_pos h1, if_pos hge]
    omega
  · rw [if_neg hge]
    have h2 : ¬(c.row_index < -90000) := by omega
    rw [if_neg h2, if_neg hge]

theorem mem_consecRows (rowIndex count x : Int) :
    x ∈ consecRows rowIndex count ↔ rowIndex ≤ x ∧ x < rowIndex + count := by
  unfold consecRows
  simp only [List.mem_map, List.mem_range]
  constructor
  · rintro ⟨i, hi, rfl⟩
    omega
  · intro h
    exact ⟨(x - rowIndex).toNat, by omega, by omega⟩

theorem sorted_consecRows (rowIndex count : Int) :
    (consecRows rowIndex count).Pairwise (· < ·) := by
  unfold consecRows
  refine List.Pairwise.map _ ?_ (List.pairwise_lt_range count.toNat)
  intro a b hab
  omega

theorem length_consecRows (rowIndex count : Int) :
    (consecRows rowIndex count).length = count.toNat := by
  unfold consecRows
  rw [List.length_map, List.length_range]

theorem countLT_consecRows_ge (rowIndex count x : Int) (h0 : 0 ≤ count)
    (hx : rowIndex + count ≤ x) : countLT (consecRows rowIndex count) x = count := by
  unfold countLT
  rw [List.filter_eq_self.mpr ?_]
  · rw [length_consecRows]
    omega
  · intro d hd
    have := (mem_consecRows rowIndex count d).mp hd
    simp only [decide_eq_true_eq]
    omega

theorem countLT_consecRows_le (rowIndex count x : Int) (hx : x ≤ rowIndex) :
    countLT (consecRows rowIndex count) x = 0 := by
  unfold countLT
  rw [List.filter_eq_nil_iff.mpr ?_]
  · rfl
  · intro d hd
    have := (mem_consecRows rowIndex count d).mp hd
    simp only [decide_eq_true_eq, not_lt]
    omega

/-- Inserting `count` rows (within the clamp) at any index and then deleting
the `count` rows at that same index restores the cell table exactly, as long
as every shifted row still lands below `MAX_ROWS` (so that the two-phase
re-keys behave as shifts). -/
theorem insertRows_deleteRows_roundtrip (rowIndex count : Int) (g : Grid)
    (h1 : 1 ≤ count) (h2 : count ≤ 100)
    (hb : ∀ c ∈ g, 0 ≤ c.row_index ∧ c.row_index + count < MAX_ROWS) :
    deleteRowsCells (consecRows rowIndex count) (insertRows rowIndex count g) = g := by
  have hclamp : clampInsertCount count = count := by
    unfold clampInsertCount
    omega
  unfold insertRows
  rw [hclamp]
  have hb' : ∀ c ∈ g, 0 ≤ c.row_index ∧ c.row_index < MAX_ROWS := by
    intro c hc
    have h := hb c hc
    exact ⟨h.1, by omega⟩
  rw [insertRowsCells_eq rowIndex count g hb']
  have hD : dedupSorted (consecRows rowIndex count) = consecRows rowIndex count :=
    dedupSorted_eq_self _ (sorted_consecRows rowIndex count)
  unfold deleteRowsCells
  rw [hD]
  have hmax : (10000 : Int) = MAX_ROWS := by simp [MAX_ROWS]
  have hrows : ∀ c ∈ mapRow (fun r => if rowIndex ≤ r then r + count else r) g,
      (0 ≤ c.row_index ∧ c.row_index < MAX_ROWS) ∧
      (c.row_index < rowIndex ∨ rowIndex + count ≤ c.row_index) := by
    intro c hc
    obtain ⟨c0, hc0, rfl⟩ := mem_mapRow hc
    obtain ⟨ha, hbd⟩ := hb c0 hc0
    rw [← hmax] at hbd
    rw [setRow_row_index]
    by_cases h : rowIndex ≤ c0.row_index
    · rw [if_pos h]
      rw [← hmax]
      omega
    · rw [if_neg h]
      rw [← hmax]
      omega
  rw [deleteRowsCellsAux_eq _ _ (sorted_consecRows rowIndex count)
    (fun c hc => (hrows c hc).1)]
  have hfilter : (mapRow (fun r => if rowIndex ≤ r then r + count else r) g).filter
      (fun c => decide (c.row_index ∉ consecRows rowIndex count)) =
      mapRow (fun r => if rowIndex ≤ r then r + count else r) g := by
    apply List.filter_eq_self.mpr
    intro c hc
    simp only [decide_eq_true_eq]
    intro hmem
    have hiv := (mem_consecRows rowIndex count c.row_index).mp hmem
    have := (hrows c hc).2
    omega
  rw [hfilter, mapRow_mapRow]
  have hpt : ∀ c ∈ g,
      (if rowIndex ≤ c.row_index then c.row_index + count else c.row_index) -
        countLT (consecRows rowIndex count)
          (if rowIndex ≤ c.row_index then c.row_index + count else c.row_index) =
      c.row_index := by
    intro c hc
    by_cases h : rowIndex ≤ c.row_index
    · rw [if_pos h, countLT_consecRows_ge rowIndex count _ (by omega) (by omega)]
      omega
    · rw [if_neg h, countLT_consecRows_le rowIndex count _ (by omega)]
      omega
  rw [@mapRow_congr
    (fun r => (if rowIndex ≤ r then r + count else r) -
      countLT (consecRows rowIndex count) (if rowIndex ≤ r then r + count else r))
    (fun r => r) g hpt, mapRow_id]

/-- A sample cell carrying only a value, for concrete evaluations. -/
def mkCell (r c : Int) (v : String) : Cell :=
  { row_index := r, col_index := c, value := some v, style := none,
    comment := none, hyperlink := none, updated_by := "u", updated_at := 0 }

/-- C1 (amended): for every sheet state whose cell rows lie in
`[0, MAX_ROWS - count)` and every count within the insert clamp
`1 ≤ count ≤ 100`, inserting `count` rows at any index and then deleting the
`count` rows at that same index returns the cell grid to its original
coordinate-to-value mapping (indeed to the identical cell table). -/
theorem C1_insert_delete_roundtrip (g : Grid) (rowIndex count : Int)
    (h1 : 1 ≤ count) (h2 : count ≤ 100)
    (hb : ∀ c ∈ g, 0 ≤ c.row_index ∧ c.row_index + count < MAX_ROWS) :
    deleteRowsCells (consecRows rowIndex count) (insertRows rowIndex count g) = g :=
  insertRows_deleteRows_roundtrip rowIndex count g h1 h2 hb

theorem C1_witness :
    deleteRowsCells (consecRows 5 3)
        (insertRows 5 3 [mkCell 4 0 "a", mkCell 5 0 "b"]) =
      [mkCell 4 0 "a", mkCell 5 0 "b"] :=
  C1_insert_delete_roundtrip [mkCell 4 0 "a", mkCell 5 0 "b"] 5 3
    (by decide) (by decide) (by decide)

/-- C1 counterexample: the claim quantifies over every count, but
`insert_rows` clamps the count to 100 while `delete_rows` deletes exactly the
rows it is given, so inserting 101 rows at index 0 and then deleting the 101
rows at index 0 destroys the cell that used to sit at row 0. -/
theorem C1_counterexample :
    cellValueAt (deleteRowsCells (consecRows 0 101)
        (insertRows 0 101 [mkCell 0 0 "v"])) 0 0 ≠
      cellValueAt [mkCell 0 0 "v"] 0 0 := by
  decide

/-- C4: `delete_rows` removes the cells of the named rows and moves every
remaining cell down by the number of deleted rows strictly below it — an
index-dependent offset, not a uniform shift. -/
theorem C4_deleteRows_shift (g : Grid) (rowIndices : List Int)
    (hb : ∀ c ∈ g, 0 ≤ c.row_index ∧ c.row_index < MAX_ROWS) :
    deleteRowsCells rowIndices g =
      mapRow (fun r => r - countLT (dedupSorted rowIndices) r)
        (g.filter (fun c => decide (c.row_index ∉ dedupSorted rowIndices))) :=
  deleteRowsCells_eq rowIndices g hb

theorem C4_witness :
    deleteRowsCells [2, 5] [mkCell 1 0 "a", mkCell 3 0 "b", mkCell 7 0 "c"] =
      mapRow (fun r => r - countLT (dedupSorted [2, 5]) r)
        ([mkCell 1 0 "a", mkCell 3 0 "b", mkCell 7 0 "c"].filter
          (fun c => decide (c.row_index ∉ dedupSorted [2, 5]))) ∧
    deleteRowsCells [2, 5] [mkCell 1 0 "a", mkCell 3 0 "b", mkCell 7 0 "c"] =
      [mkCell 1 0 "a", mkCell 2 0 "b", mkCell 5 0 "c"] :=
  ⟨C4_deleteRows_shift [mkCell 1 0 "a", mkCell 3 0 "b", mkCell 7 0 "c"] [2, 5] (by decide),
   by decide⟩

/-- Python `str.strip()` restricted to ASCII whitespace. -/
def pyStrip (s : String) : String :=
  ⟨((s.data.dropWhile Char.isWhitespace).reverse.dropWhile Char.isWhitespace).reverse⟩

/-- Python `str.lower()` restricted to ASCII letters. -/
def pyLower (s : String) : String := ⟨s.data.map Char.toLower⟩

/-- Python `str.startswith(p)`. -/
def pyStartsWith (s p : String) : Bool := p.data.isPrefixOf s.data

/-- The allowed hyperlink schemes of `_apply_patches`:
`('http://', 'https://', 'mailto:', '#')`. -/
def allowedProtos : List String := ["http://", "https://", "mailto:", "#"]

/-- Hyperlink sanitisation from `_apply_patches` (cells.py lines 106-112):
strip the value; a non-empty stripped value whose lowercase form starts with
none of the allowed schemes becomes `None`; finally an empty value also
becomes `None`. -/
def sanitizeHyperlink (raw : String) : Option String :=
  let hl := pyStrip raw
  let hl2 : Option String :=
    if hl ≠ "" ∧ ¬ (allowedProtos.any (fun proto => pyStartsWith (pyLower hl) proto))
    then none else some hl
  match hl2 with
  | none => none
  | some s => if s = "" then none else some s

/-- The claim's phrase "begins (case-insensitively) with one of http://,
https://, mailto:, or #", as a predicate on a string. -/
def beginsWithAllowedScheme (s : String) : Bool :=
  allowedProtos.any (fun proto => pyStartsWith (pyLower s) proto)

/-- One entry of the `patches` array of a PATCH request (`PatchItem` in
cells.py): absent JSON fields are `none`. -/
structure PatchItem where
  row : Int
  col : Int
  value : Option String := none
  style : Option String := none
  comment : Option String := none
  hyperlink : Option String := none
deriving DecidableEq

/-- Update branch of `_apply_patches` for an existing cell (cells.py lines
106-124): each of value/style/comment/hyperlink is overwritten only when the
patch carries that field; a patch comment of `""` is stored as absent; a
carried hyperlink is stored through `sanitizeHyperlink`; editor and
timestamp are always refreshed. -/
def applyPatchToExisting (existing : Cell) (p : PatchItem) (uid : String) (t : Int) : Cell :=
  let safeHyperlink : Option String :=
    match p.hyperlink with
    | none => none
    | some h => sanitizeHyperlink h
  let c1 := match p.value with
    | some v => { existing with value := some v }
    | none => existing
  let c2 := match p.style with
    | some s => { c1 with style := some s }
    | none => c1
  let c3 := match p.comment with
    | some m => { c2 with comment := if m = "" then none else some m }
    | none => c2
  let c4 := match p.hyperlink with
    | some _ => { c3 with hyperlink := safeHyperlink }
    | none => c3
  { c4 with updated_by := uid, updated_at := t }

/-- C5 (amended): the hyperlink value is first stripped of surrounding
whitespace; the stripped value is stored verbatim if and only if it is
non-empty and begins (case-insensitively) with one of `http://`, `https://`,
`mailto:`, or `#`, and is stored as absent otherwise.  In particular
`javascript:alert(1)` is stored as absent and `https://example.com` is
stored verbatim. -/
theorem C5_hyperlink_sanitization :
    (∀ raw : String,
      sanitizeHyperlink raw =
        if pyStrip raw ≠ "" ∧ beginsWithAllowedScheme (pyStrip raw) = true
        then some (pyStrip raw) else none) ∧
    sanitizeHyperlink "javascript:alert(1)" = none ∧
    sanitizeHyperlink "https://example.com" = some "https://example.com" := by
  refine ⟨?_, by decide, by decide⟩
  intro raw
  unfold sanitizeHyperlink beginsWithAllowedScheme
  by_cases h1 : pyStrip raw = ""
  · simp [h1]
  · by_cases h2 :
      (allowedProtos.any (fun proto => pyStartsWith (pyLower (pyStrip raw)) proto)) = true
    · simp [h1, h2]
    · simp [h1, h2]

/-- C5 counterexample: a hyperlink with a leading space does not begin with
an allowed scheme, yet it is stored (stripped) rather than discarded,
because the code strips before checking — the claim's "stored iff the value
begins with an allowed scheme" fails on the raw value. -/
theorem C5_counterexample :
    sanitizeHyperlink " https://example.com" = some "https://example.com" ∧
    beginsWithAllowedScheme " https://example.com" = false ∧
    " https://example.com" ≠ "" := by
  refine ⟨by decide, by decide, by decide⟩

/-- C10: for a patch applied to an existing cell, each of the four fields
value, style, comment and hyperlink is left unchanged whenever the patch
does not carry that field. -/
theorem C10_patch_frame (existing : Cell) (p : PatchItem) (uid : String) (t : Int) :
    (p.value = none → (applyPatchToExisting existing p uid t).value = existing.value) ∧
    (p.style = none → (applyPatchToExisting existing p uid t).style = existing.style) ∧
    (p.comment = none → (applyPatchToExisting existing p uid t).comment = existing.comment) ∧
    (p.hyperlink = none →
      (applyPatchToExisting existing p uid t).hyperlink = existing.hyperlink) := by
  unfold applyPatchToExisting
  rcases hv : p.value <;> rcases hs : p.style <;> rcases hc : p.comment <;>
    rcases hh : p.hyperlink <;> simp [hv, hs, hc, hh]

theorem C10_witness :
    (applyPatchToExisting (mkCell 0 0 "old") { row := 0, col := 0, value := some "new" }
        "u2" 1).style = (mkCell 0 0 "old").style ∧
    (applyPatchToExisting (mkCell 0 0 "old") { row := 0, col := 0, value := some "new" }
        "u2" 1).comment = (mkCell 0 0 "old").comment ∧
    (applyPatchToExisting (mkCell 0 0 "old") { row := 0, col := 0, value := some "new" }
        "u2" 1).hyperlink = (mkCell 0 0 "old").hyperlink :=
  ⟨(C10_patch_frame (mkCell 0 0 "old") { row := 0, col := 0, value := some "new" } "u2" 1).2.1 rfl,
   (C10_patch_frame (mkCell 0 0 "old") { row := 0, col := 0, value := some "new" } "u2" 1).2.2.1 rfl,
   (C10_patch_frame (mkCell 0 0 "old") { row := 0, col := 0, value := some "new" } "u2" 1).2.2.2 rfl⟩

/-- The exact rational value of a finite decimal literal, kept as an
unreduced fraction `num / den` with `den` a positive power of ten, so that
comparisons evaluate by integer cross-multiplication. -/
structure PyFloat where
  num : Int
  den : Nat
deriving DecidableEq

/-- Second component of a Python sort key in `sort_key`: a parsed float or a
lowercased string.  Comparing a `num` with a `str` raises `TypeError` in
Python; `kvalCmp` models that as `none`. -/
inductive KVal where
  | num (f : PyFloat)
  | str (s : String)
deriving DecidableEq

/-- Read a maximal run of decimal digits. -/
def readDigits : List Char → List Nat × List Char
  | [] => ([], [])
  | c :: cs =>
    if c.isDigit then
      let p := readDigits cs
      ((c.toNat - 48) :: p.1, p.2)
    else ([], c :: cs)

def digitsToNat (ds : List Nat) : Nat := ds.foldl (fun a d => a * 10 + d) 0

def pySign : List Char → Int × List Char
  | '+' :: r => (1, r)
  | '-' :: r => (-1, r)
  | r => (1, r)

/-- Python `float(val)` on finite decimal literals: optional surrounding
whitespace and sign, integer and/or fraction digits, optional exponent.
`inf`/`nan` words and digit-grouping underscores are outside the modelled
grammar (none of the properties below involve them), and the literal's value
is kept exactly instead of being rounded to binary floating point.  `none`
models `ValueError`. -/
def pyFloat? (s : String) : Option PyFloat :=
  let cs := (pyStrip s).data
  let sg := pySign cs
  let ip := readDigits sg.2
  let fr : List Nat × List Char :=
    match ip.2 with
    | '.' :: r => readDigits r
    | r => ([], r)
  if ip.1.isEmpty ∧ fr.1.isEmpty then none
  else
    let num0 : Int := sg.1 * ((digitsToNat ip.1 * 10 ^ fr.1.length + digitsToNat fr.1 : Nat) : Int)
    let den0 : Nat := 10 ^ fr.1.length
    match fr.2 with
    | [] => some ⟨num0, den0⟩
    | e :: r =>
      if e = 'e' ∨ e = 'E' then
        let es := pySign r
        let ed := readDigits es.2
        if ed.1.isEmpty ∨ ¬ ed.2.isEmpty then none
        else
          let expVal : Int := es.1 * (digitsToNat ed.1 : Int)
          if 0 ≤ expVal then some ⟨num0 * 10 ^ expVal.toNat, den0⟩
          else some ⟨num0, den0 * 10 ^ (-expVal).toNat⟩
      else none

/-- `sort_key` from `sort_sheet` (cells.py lines 783-790): an empty value
gets the key `(1, "")`; otherwise a successful numeric parse gives
`(0, float(val))` and a failed one gives `(0, val.lower())`. -/
def sortKeyOfVal (val : String) : Nat × KVal :=
  if val = "" then (1, KVal.str "")
  else
    match pyFloat? val with
    | some q => (0, KVal.num q)
    | none => (0, KVal.str (pyLower val))

/-- Numeric comparison of two parsed floats, by cross-multiplication of the
exact fractions (denominators are positive powers of ten). -/
def pyFloatCmp (a b : PyFloat) : Ordering :=
  if a.num * (b.den : Int) < b.num * (a.den : Int) then .lt
  else if b.num * (a.den : Int) < a.num * (b.den : Int) then .gt
  else .eq

/-- Code-point-wise lexicographic comparison, as Python compares `str`. -/
def charListCmp : List Char → List Char → Ordering
  | [], [] => .eq
  | [], _ :: _ => .lt
  | _ :: _, [] => .gt
  | a :: as, b :: bs =>
    if a.toNat < b.toNat then .lt
    else if b.toNat < a.toNat then .gt
    else charListCmp as bs

def strCmp (a b : String) : Ordering := charListCmp a.data b.data

/-- Python comparison of the second tuple components; `none` is the
`TypeError` raised when a float meets a str. -/
def kvalCmp : KVal → KVal → Option Ordering
  | .num a, .num b => some (pyFloatCmp a b)
  | .str a, .str b => some (strCmp a b)
  | _, _ => none

/-- Python tuple comparison of two sort keys. -/
def skeyCmp (k1 k2 : Nat × KVal) : Option Ordering :=
  if k1.1 < k2.1 then some .lt
  else if k2.1 < k1.1 then some .gt
  else kvalCmp k1.2 k2.2

def orderingNotGT : Ordering → Bool
  | .gt => false
  | _ => true

def orderingNotLT : Ordering → Bool
  | .lt => false
  | _ => true

/-- "k1 may come no later than k2" in an ascending sort. -/
def skeyLE (k1 k2 : Nat × KVal) : Option Bool := (skeyCmp k1 k2).map orderingNotGT

/-- "k1 may come no later than k2" in a descending (`reverse=True`) sort. -/
def skeyGE (k1 k2 : Nat × KVal) : Option Bool := (skeyCmp k1 k2).map orderingNotLT

/-- Insert into an already-sorted list under a partial "comes no later than"
test; `none` propagates Python's `TypeError`.  The element is placed before
the first list element it may precede, so tied elements keep their original
relative order — the stability guarantee of Python's sort. -/
def orderedInsertO {α : Type} (le : α → α → Option Bool) (a : α) : List α → Option (List α)
  | [] => some [a]
  | b :: l =>
    match le a b with
    | none => none
    | some true => some (a :: b :: l)
    | some false => (orderedInsertO le a l).map (fun r => b :: r)

/-- Stable comparison sort in the `Option` monad. -/
def insertionSortO {α : Type} (le : α → α → Option Bool) : List α → Option (List α)
  | [] => some []
  | a :: l => (insertionSortO le l).bind (orderedInsertO le a)

/-- `row_values.get(ri, "")`: the value stored at the sort column in row
`ri`, with a missing cell and a `None` value both read as `""`
(`c.value or ""`); a later cell at the same coordinate overwrites an earlier
one, as in the Python dict build. -/
def rowValue (cells : Grid) (colIndex ri : Int) : String :=
  match (cells.filter (fun c => decide (c.col_index = colIndex ∧ c.row_index = ri))).getLast? with
  | some c => c.value.getD ""
  | none => ""

/-- `max(c.row_index for c in cells)`; `cells` is non-empty on this code
path. -/
def maxRowIdx : Grid → Int
  | [] => 0
  | c :: cs => cs.foldl (fun m x => max m x.row_index) c.row_index

/-- The row order computed by `sort_sheet`:
`row_indices = list(range(max_row + 1))` sorted by `sort_key` with
`reverse=not ascending`; `none` models the `TypeError` Python raises when a
numeric key is compared with a string key. -/
def sortPermutation (cells : Grid) (colIndex : Int) (ascending : Bool) : Option (List Int) :=
  let key := fun ri => sortKeyOfVal (rowValue cells colIndex ri)
  let rowIndices := (List.range (maxRowIdx cells + 1).toNat).map (fun i : Nat => (i : Int))
  insertionSortO
    (fun a b => if ascending then skeyLE (key a) (key b) else skeyGE (key a) (key b))
    rowIndices

/-- A merge range parsed from an xlsx range string (1-based bounds, as
`openpyxl.range_boundaries` returns them). -/
structure MergeRange where
  minCol : Nat
  minRow : Nat
  maxCol : Nat
  maxRow : Nat
deriving DecidableEq

/-- The sheet state read and written by `sort_sheet`: the cell table and the
parsed `merges` / `row_heights` metadata (height payloads kept opaque). -/
structure Sheet where
  cells : Grid
  merges : List MergeRange
  rowHeights : List (Int × String)
deriving DecidableEq

inductive SortOutcome where
  | mergeRejected (detail : String)
  | noData
  | raisedTypeError
  | sorted
deriving DecidableEq

/-- The HTTP 400 detail returned when a merge spans more than one row. -/
def mergeSortRejectDetail : String := "행 간 병합 셀이 있어 정렬할 수 없습니다"

/-- `old_to_new.get(r, r)` where `old_to_new` enumerates the sorted row
order. -/
def indexIn (perm : List Int) (r : Int) : Int :=
  match perm.findIdx? (fun x => decide (x = r)) with
  | some i => (i : Int)
  | none => r

/-- `sort_sheet` as a state transformer on one sheet.  The multi-row-merge
check runs before anything is touched, so both error outcomes return the
sheet unchanged; on success cells and row heights are re-keyed through the
sorted order (the `+OFFSET` / `-OFFSET` flush dance nets out to the direct
assignment). -/
def sortSheetRun (s : Sheet) (colIndex : Int) (ascending : Bool) : Sheet × SortOutcome :=
  if s.merges.any (fun m => decide (m.minRow < m.maxRow)) then
    (s, .mergeRejected mergeSortRejectDetail)
  else if s.cells.isEmpty then (s, .noData)
  else
    match sortPermutation s.cells colIndex ascending with
    | none => (s, .raisedTypeError)
    | some perm =>
      ({ cells := mapRow (fun r => indexIn perm r) s.cells,
         merges := s.merges,
         rowHeights := s.rowHeights.map (fun kv => (indexIn perm kv.1, kv.2)) },
       .sorted)

theorem mem_orderedInsertO {α : Type} (le : α → α → Option Bool) (a : α) :
    ∀ (l out : List α), orderedInsertO le a l = some out → ∀ x ∈ out, x = a ∨ x ∈ l := by
  intro l
  induction l with
  | nil =>
    intro out h x hx
    simp only [orderedInsertO, Option.some.injEq] at h
    subst h
    rcases List.mem_singleton.mp hx with rfl
    exact Or.inl rfl
  | cons b t ih =>
    intro out h x hx
    unfold orderedInsertO at h
    rcases hle : le a b with _ | bv
    · rw [hle] at h
      cases h
    · rw [hle] at h
      cases bv
      · rcases Option.map_eq_some'.mp h with ⟨r, hr, rfl⟩
        rcases List.mem_cons.mp hx with rfl | hx2
        · exact Or.inr (List.mem_cons_self x t)
        · rcases ih r hr x hx2 with h' | h'
          · exact Or.inl h'
          · exact Or.inr (List.mem_cons_of_mem b h')
      · obtain rfl := Option.some.inj h
        rcases List.mem_cons.mp hx with rfl | hx2
        · exact Or.inl rfl
        · exact Or.inr hx2

/-- Inserting into a list whose "flag" values are nondecreasing keeps them
nondecreasing, when the comparison respects the flag in both directions. -/
theorem orderedInsertO_pairwise_flag {α : Type} (le : α → α → Option Bool) (f : α → Nat)
    (h1 : ∀ a b, le a b = some true → f a ≤ f b)
    (h2 : ∀ a b, le a b = some false → f b ≤ f a) :
    ∀ (l : List α) (a : α) (out : List α),
      l.Pairwise (fun x y => f x ≤ f y) →
      orderedInsertO le a l = some out →
      out.Pairwise (fun x y => f x ≤ f y) := by
  intro l
  induction l with
  | nil =>
    intro a out _ h
    simp only [orderedInsertO, Option.some.injEq] at h
    subst h
    simp
  | cons b t ih =>
    intro a out hp h
    obtain ⟨hb, ht⟩ := List.pairwise_cons.mp hp
    unfold orderedInsertO at h
    rcases hle : le a b with _ | bv
    · rw [hle] at h
      cases h
    · rw [hle] at h
      cases bv
      · rcases Option.map_eq_some'.mp h with ⟨r, hr, rfl⟩
        refine List.pairwise_cons.mpr ⟨?_, ih a r ht hr⟩
        intro x hx
        rcases mem_orderedInsertO le a t r hr x hx with rfl | hx2
        · exact h2 x b hle
        · exact hb x hx2
      · obtain rfl := Option.some.inj h
        refine List.pairwise_cons.mpr ⟨?_, hp⟩
        intro x hx
        rcases List.mem_cons.mp hx with rfl | hx2
        · exact h1 a x hle
        · exact le_trans (h1 a b hle) (hb x hx2)

/-- A successful run of the stable sort produces a list whose "flag" values
are nondecreasing, when the comparison respects the flag. -/
theorem insertionSortO_pairwise_flag {α : Type} (le : α → α → Option Bool) (f : α → Nat)
    (h1 : ∀ a b, le a b = some true → f a ≤ f b)
    (h2 : ∀ a b, le a b = some false → f b ≤ f a) :
    ∀ (l out : List α), insertionSortO le l = some out →
      out.Pairwise (fun x y => f x ≤ f y) := by
  intro l
  induction l with
  | nil =>
    intro out h
    simp only [insertionSortO, Option.some.injEq] at h
    subst h
    simp
  | cons a t ih =>
    intro out h
    unfold insertionSortO at h
    rcases hs : insertionSortO le t with _ | r
    · rw [hs] at h
      cases h
    · rw [hs] at h
      exact orderedInsertO_pairwise_flag le f h1 h2 r a out (ih r hs) h

theorem skeyLE_true_flag {k1 k2 : Nat × KVal} (h : skeyLE k1 k2 = some true) : k1.1 ≤ k2.1 := by
  unfold skeyLE skeyCmp at h
  by_cases h1 : k1.1 < k2.1
  · omega
  · rw [if_neg h1] at h
    by_cases h2 : k2.1 < k1.1
    · rw [if_pos h2] at h
      simp [orderingNotGT] at h
    · omega

theorem skeyLE_false_flag {k1 k2 : Nat × KVal} (h : skeyLE k1 k2 = some false) : k2.1 ≤ k1.1 := by
  unfold skeyLE skeyCmp at h
  by_cases h1 : k1.1 < k2.1
  · rw [if_pos h1] at h
    simp [orderingNotGT] at h
  · omega

theorem skeyGE_true_flag {k1 k2 : Nat × KVal} (h : skeyGE k1 k2 = some true) : k2.1 ≤ k1.1 := by
  unfold skeyGE skeyCmp at h
  by_cases h1 : k1.1 < k2.1
  · rw [if_pos h1] at h
    simp [orderingNotLT] at h
  · omega

theorem skeyGE_false_flag {k1 k2 : Nat × KVal} (h : skeyGE k1 k2 = some false) : k1.1 ≤ k2.1 := by
  unfold skeyGE skeyCmp at h
  by_cases h1 : k1.1 < k2.1
  · omega
  · rw [if_neg h1] at h
    by_cases h2 : k2.1 < k1.1
    · rw [if_pos h2] at h
      simp [orderingNotLT] at h
    · omega

theorem sortKeyOfVal_fst (v : String) : (sortKeyOfVal v).1 = if v = "" then 1 else 0 := by
  unfold sortKeyOfVal
  by_cases h : v = ""
  · simp [h]
  · rcases hf : pyFloat? v with _ | q <;> simp [h, hf]

/-- In a successful ascending sort, every row whose sort-column value is
empty comes after every row whose value is non-empty. -/
theorem sortPermutation_empty_last_asc (cells : Grid) (colIndex : Int) (out : List Int)
    (h : sortPermutation cells colIndex true = some out) :
    out.Pairwise (fun a b => rowValue cells colIndex b ≠ "" → rowValue cells colIndex a ≠ "") := by
  unfold sortPermutation at h
  simp only [if_true] at h
  have hp := insertionSortO_pairwise_flag
    (fun a b => skeyLE (sortKeyOfVal (rowValue cells colIndex a))
      (sortKeyOfVal (rowValue cells colIndex b)))
    (fun ri => (sortKeyOfVal (rowValue cells colIndex ri)).1)
    (fun a b hab => skeyLE_true_flag hab)
    (fun a b hab => skeyLE_false_flag hab)
    _ out h
  refine hp.imp ?_
  intro a b hab hnb
  dsimp only at hab
  rw [sortKeyOfVal_fst, sortKeyOfVal_fst] at hab
  rw [if_neg hnb] at hab
  intro hna
  rw [if_pos hna] at hab
  omega

/-- In a successful descending (`reverse=True`) sort, every row whose
sort-column value is empty comes before every row whose value is
non-empty. -/
theorem sortPermutation_empty_first_desc (cells : Grid) (colIndex : Int) (out : List Int)
    (h : sortPermutation cells colIndex false = some out) :
    out.Pairwise (fun a b => rowValue cells colIndex b = "" → rowValue cells colIndex a = "") := by
  unfold sortPermutation at h
  simp only [Bool.false_eq_true, if_false] at h
  have hp := insertionSortO_pairwise_flag
    (fun a b => skeyGE (sortKeyOfVal (rowValue cells colIndex a))
      (sortKeyOfVal (rowValue cells colIndex b)))
    (fun ri => 1 - (sortKeyOfVal (rowValue cells colIndex ri)).1)
    (fun a b hab => Nat.sub_le_sub_left (skeyGE_true_flag hab) 1)
    (fun a b hab => Nat.sub_le_sub_left (skeyGE_false_flag hab) 1)
    _ out h
  refine hp.imp ?_
  intro a b hab hb
  dsimp only at hab
  rw [sortKeyOfVal_fst, sortKeyOfVal_fst] at hab
  rw [if_pos hb] at hab
  by_contra hna
  rw [if_neg hna] at hab
  omega

/-- C3 (amended): sorting ascending on a column with values "3","1","2" at
rows 0,1,2 yields row order [1,2,0]; in any successful sort an absent or
empty value sorts last when ascending but first when descending (the
`(1, "")` key is the largest, and `reverse=True` puts the largest first). -/
theorem C3_sort_order :
    sortPermutation [mkCell 0 0 "3", mkCell 1 0 "1", mkCell 2 0 "2"] 0 true = some [1, 2, 0] ∧
    (∀ (cells : Grid) (colIndex : Int) (out : List Int),
      sortPermutation cells colIndex true = some out →
      out.Pairwise (fun a b => rowValue cells colIndex b ≠ "" → rowValue cells colIndex a ≠ "")) ∧
    (∀ (cells : Grid) (colIndex : Int) (out : List Int),
      sortPermutation cells colIndex false = some out →
      out.Pairwise (fun a b => rowValue cells colIndex b = "" → rowValue cells colIndex a = "")) :=
  ⟨by decide, sortPermutation_empty_last_asc, sortPermutation_empty_first_desc⟩

theorem C3_witness :
    sortPermutation [mkCell 0 0 "1", mkCell 1 0 ""] 0 true = some [0, 1] ∧
    ([0, 1] : List Int).Pairwise
      (fun a b => rowValue [mkCell 0 0 "1", mkCell 1 0 ""] 0 b ≠ "" →
        rowValue [mkCell 0 0 "1", mkCell 1 0 ""] 0 a ≠ "") :=
  ⟨by decide, C3_sort_order.2.1 [mkCell 0 0 "1", mkCell 1 0 ""] 0 [0, 1] (by decide)⟩

/-- C3 counterexample: sorting descending on a column with values "2","1",""
at rows 0,1,2 puts the empty-valued row 2 first, not last — the claim's
"an absent or empty value sorts last regardless of direction" fails. -/
theorem C3_counterexample :
    sortPermutation [mkCell 0 0 "2", mkCell 1 0 "1", mkCell 2 0 ""] 0 false = some [2, 0, 1] ∧
    rowValue [mkCell 0 0 "2", mkCell 1 0 "1", mkCell 2 0 ""] 0 2 = "" ∧
    rowValue [mkCell 0 0 "2", mkCell 1 0 "1", mkCell 2 0 ""] 0 0 ≠ "" := by
  refine ⟨by decide, by decide, by decide⟩

/-- C6: a sheet containing a merge range spanning more than one row makes
`sort_sheet` fail with the descriptive 400 error before anything is touched,
so the returned state (cells, merges, row heights) is the input state. -/
theorem C6_sort_merge_rejected (s : Sheet) (colIndex : Int) (ascending : Bool)
    (h : ∃ m ∈ s.merges, m.minRow < m.maxRow) :
    sortSheetRun s colIndex ascending = (s, SortOutcome.mergeRejected mergeSortRejectDetail) := by
  unfold sortSheetRun
  rw [if_pos ?_]
  apply List.any_eq_true.mpr
  obtain ⟨m, hm, hlt⟩ := h
  exact ⟨m, hm, by simpa using hlt⟩

theorem C6_witness :
    sortSheetRun ⟨[mkCell 0 0 "b", mkCell 1 0 "a"], [⟨1, 1, 1, 2⟩], [(0, "20")]⟩ 0 true =
      (⟨[mkCell 0 0 "b", mkCell 1 0 "a"], [⟨1, 1, 1, 2⟩], [(0, "20")]⟩,
       SortOutcome.mergeRejected mergeSortRejectDetail) :=
  C6_sort_merge_rejected ⟨[mkCell 0 0 "b", mkCell 1 0 "a"], [⟨1, 1, 1, 2⟩], [(0, "20")]⟩ 0 true
    ⟨⟨1, 1, 1, 2⟩, by decide, by decide⟩

/-- C9 refutation: sorting a column that mixes a numerically parsable value
with a non-numeric text value compares the key `(0, float(..))` with
`(0, str(..))`, which raises `TypeError` in Python — modelled as `none`.
The sort-key comparison is not total. -/
theorem C9_mixed_column_type_error :
    sortPermutation [mkCell 0 0 "1", mkCell 1 0 "abc"] 0 true = none ∧
    skeyCmp (sortKeyOfVal "1") (sortKeyOfVal "abc") = none := by
  refine ⟨by decide, by decide⟩

/-- The `TextDocument` row fields read by `save_doc`. -/
structure TextDoc where
  id : String
  version : Int
  status : String
deriving DecidableEq

/-- One `TextDocumentContent` row: a content snapshot at a version. -/
structure ContentRow where
  version : Int
  content : String
deriving DecidableEq

/-- One `TextDocumentChangeLog` row as written by `save_doc`. -/
structure DocLogRow where
  userId : String
  version : Int
  contentSize : Nat
deriving DecidableEq

/-- The persisted state of one text document. -/
structure DocState where
  doc : TextDoc
  contents : List ContentRow
  changelog : List DocLogRow
deriving DecidableEq

/-- The `doc_updated` broadcast issued by a successful save: room
`"textdoc:{doc.id}"`, the new version and content, and the saving user. -/
structure DocUpdatedEvent where
  room : String
  version : Int
  content : String
  updatedBy : String
deriving DecidableEq

inductive SaveOutcome where
  | closedError
  | conflictError (serverVersion : Int) (currentContent : String)
  | success (newVersion : Int) (event : DocUpdatedEvent)
deriving DecidableEq

/-- `ORDER BY version DESC ... first()`: the row with the largest version
(first-seen wins on a tie, as the database may return either). -/
def latestRow (rows : List ContentRow) : Option ContentRow :=
  rows.foldl (fun acc r =>
    match acc with
    | none => some r
    | some m => if m.version < r.version then some r else acc) none

/-- `latest.content if latest else ""`. -/
def latestContent (rows : List ContentRow) : String :=
  match latestRow rows with
  | some r => r.content
  | none => ""

def insertByVersionDesc (r : ContentRow) : List ContentRow → List ContentRow
  | [] => [r]
  | b :: l => if b.version ≤ r.version then r :: b :: l else b :: insertByVersionDesc r l

/-- The snapshot rows ordered by version descending. -/
def sortByVersionDesc (rows : List ContentRow) : List ContentRow :=
  rows.foldr insertByVersionDesc []

/-- The retention pruning of `save_doc`: rows beyond the 50 most recent
versions (`ORDER BY version DESC OFFSET 50`) are deleted. -/
def pruneContents (rows : List ContentRow) : List ContentRow :=
  (sortByVersionDesc rows).take 50

/-- `save_doc` from `text_documents.py` (lines 220-297) on a document that
exists: a closed document blocks non-admin saves; a `base_version` different
from the stored version is rejected with HTTP 409 carrying the server's
version and latest content, changing nothing; otherwise a snapshot and a
change-log row are written at `version + 1`, the document version becomes
`version + 1`, snapshots beyond the 50 most recent are pruned, and a
`doc_updated` event is broadcast to room `"textdoc:{doc.id}"` with no
exclusion. -/
def saveDoc (st : DocState) (content : String) (baseVersion : Int)
    (isAdmin : Bool) (userId userName : String) : DocState × SaveOutcome :=
  if st.doc.status = "CLOSED" ∧ ¬ isAdmin then
    (st, .closedError)
  else if baseVersion ≠ st.doc.version then
    (st, .conflictError st.doc.version (latestContent st.contents))
  else
    let newVersion := st.doc.version + 1
    ({ doc := { st.doc with version := newVersion },
       contents := pruneContents (st.contents ++ [⟨newVersion, content⟩]),
       changelog := st.changelog ++ [⟨userId, newVersion, content.length⟩] },
     .success newVersion ⟨"textdoc:" ++ st.doc.id, newVersion, content, userName⟩)

/-- C2: on an open document, a save whose `base_version` equals the stored
version succeeds, sets the version to exactly `version + 1` and publishes a
`doc_updated` event carrying the new version and content to the document's
room; a save with any other `base_version` returns the conflict error
carrying the server's version and current content and leaves the document
state unchanged. -/
theorem C2_save_doc (st : DocState) (content : String) (baseVersion : Int)
    (isAdmin : Bool) (userId userName : String)
    (hopen : st.doc.status = "OPEN") :
    (baseVersion = st.doc.version →
      (saveDoc st content baseVersion isAdmin userId userName).1.doc.version =
          st.doc.version + 1 ∧
      (saveDoc st content baseVersion isAdmin userId userName).2 =
        SaveOutcome.success (st.doc.version + 1)
          ⟨"textdoc:" ++ st.doc.id, st.doc.version + 1, content, userName⟩) ∧
    (baseVersion ≠ st.doc.version →
      saveDoc st content baseVersion isAdmin userId userName =
        (st, SaveOutcome.conflictError st.doc.version (latestContent st.contents))) := by
  have hnc : ¬ (st.doc.status = "CLOSED" ∧ ¬ isAdmin) := by
    rw [hopen]
    simp
  constructor
  · intro heq
    unfold saveDoc
    rw [if_neg hnc, if_neg (by omega : ¬ baseVersion ≠ st.doc.version)]
    exact ⟨rfl, rfl⟩
  · intro hne
    unfold saveDoc
    rw [if_neg hnc, if_pos hne]

theorem C2_witness :
    (saveDoc ⟨⟨"d1", 3, "OPEN"⟩, [⟨1, "a"⟩, ⟨3, "c"⟩, ⟨2, "b"⟩], []⟩ "new" 3
        false "u1" "alice").1.doc.version = 4 ∧
    (saveDoc ⟨⟨"d1", 3, "OPEN"⟩, [⟨1, "a"⟩, ⟨3, "c"⟩, ⟨2, "b"⟩], []⟩ "new" 3
        false "u1" "alice").2 =
      SaveOutcome.success 4 ⟨"textdoc:d1", 4, "new", "alice"⟩ ∧
    saveDoc ⟨⟨"d1", 3, "OPEN"⟩, [⟨1, "a"⟩, ⟨3, "c"⟩, ⟨2, "b"⟩], []⟩ "other" 7
        false "u1" "alice" =
      (⟨⟨"d1", 3, "OPEN"⟩, [⟨1, "a"⟩, ⟨3, "c"⟩, ⟨2, "b"⟩], []⟩,
       SaveOutcome.conflictError 3 "c") :=
  ⟨((C2_save_doc ⟨⟨"d1", 3, "OPEN"⟩, [⟨1, "a"⟩, ⟨3, "c"⟩, ⟨2, "b"⟩], []⟩ "new" 3
      false "u1" "alice" rfl).1 rfl).1,
   ((C2_save_doc ⟨⟨"d1", 3, "OPEN"⟩, [⟨1, "a"⟩, ⟨3, "c"⟩, ⟨2, "b"⟩], []⟩ "new" 3
      false "u1" "alice" rfl).1 rfl).2,
   by
    have h := (C2_save_doc ⟨⟨"d1", 3, "OPEN"⟩, [⟨1, "a"⟩, ⟨3, "c"⟩, ⟨2, "b"⟩], []⟩ "other" 7
      false "u1" "alice" rfl).2 (by decide)
    rw [h]
    decide⟩

/-- A subscriber connection, identified by the object identity the hub's
`ws is exclude` test and `set` membership use. -/
abbrev Conn := Nat

/-- The delivery pass of `WSHub.broadcast` over `list(room)`: skip the
excluded connection, try to send to each of the others, and collect the
connections whose send raised (`dead`).  `ok w = true` means `send_text`
succeeds on `w`.  Returns `(delivered, dead)`. -/
def broadcastPass (exclude : Option Conn) (ok : Conn → Bool) :
    List Conn → List Conn × List Conn
  | [] => ([], [])
  | w :: rest =>
    let p := broadcastPass exclude ok rest
    if exclude = some w then p
    else if ok w then (w :: p.1, p.2)
    else (p.1, w :: p.2)

/-- `WSHub.broadcast`: the full delivery pass first, then — only after the
pass completes — `room -= dead`.  Returns the delivered connections and the
room's membership for subsequent publishes.  The whole operation is total:
a failed send is swallowed and only marks that connection dead. -/
def broadcastRun (room : List Conn) (exclude : Option Conn) (ok : Conn → Bool) :
    List Conn × List Conn :=
  let p := broadcastPass exclude ok room
  (p.1, room.filter (fun w => decide (w ∉ p.2)))

theorem broadcastPass_eq (exclude : Option Conn) (ok : Conn → Bool) :
    ∀ room : List Conn,
      broadcastPass exclude ok room =
        (room.filter (fun w => decide (exclude ≠ some w) && ok w),
         room.filter (fun w => decide (exclude ≠ some w) && ! ok w)) := by
  intro room
  induction room with
  | nil => rfl
  | cons w rest ih =>
    unfold broadcastPass
    rw [ih]
    by_cases he : exclude = some w
    · simp [List.filter_cons, he]
    · rcases hok : ok w <;> simp [List.filter_cons, he, hok]

/-- Membership in the delivered list of a broadcast. -/
theorem mem_broadcast_delivered {room : List Conn} {exclude : Option Conn}
    {ok : Conn → Bool} {w : Conn} :
    w ∈ (broadcastRun room exclude ok).1 ↔
      w ∈ room ∧ exclude ≠ some w ∧ ok w = true := by
  unfold broadcastRun
  rw [broadcastPass_eq]
  dsimp only
  rw [List.mem_filter]
  simp [and_assoc]

/-- C7: publishing to a room in which exactly one connection's send fails
still delivers to every other connection, the publish itself returns
normally, and exactly the failing connection is dropped from the room's
membership — with removal applied only after the whole delivery pass, which
is why the delivered set is computed from the unmodified room. -/
theorem C7_broadcast_single_failure (room : List Conn) (ok : Conn → Bool) (f : Conn)
    (hmem : f ∈ room) (hfail : ok f = false)
    (hok : ∀ w ∈ room, w ≠ f → ok w = true) :
    (∀ w ∈ room, w ≠ f → w ∈ (broadcastRun room none ok).1) ∧
    f ∉ (broadcastRun room none ok).1 ∧
    (broadcastRun room none ok).2 = room.filter (fun w => decide (w ≠ f)) := by
  refine ⟨?_, ?_, ?_⟩
  · intro w hw hne
    exact mem_broadcast_delivered.mpr ⟨hw, by simp, hok w hw hne⟩
  · intro hf
    have := (mem_broadcast_delivered.mp hf).2.2
    rw [hfail] at this
    cases this
  · unfold broadcastRun
    rw [broadcastPass_eq]
    dsimp only
    apply List.filter_congr
    intro w hw
    by_cases hwf : w = f
    · subst hwf
      have hfd : w ∈ List.filter (fun w => decide (none ≠ some w) && !ok w) room :=
        List.mem_filter.mpr ⟨hw, by simp [hfail]⟩
      rw [decide_eq_false (fun h => h hfd), decide_eq_false (fun h => h rfl)]
    · have h1 : w ∉ List.filter (fun w => decide (none ≠ some w) && !ok w) room := by
        intro hin
        have := (List.mem_filter.mp hin).2
        simp [hok w hw hwf] at this
      rw [decide_eq_true h1, decide_eq_true hwf]

theorem C7_witness :
    (2 : Conn) ∉ (broadcastRun [1, 2, 3] none (fun w => decide (w ≠ 2))).1 ∧
    (1 : Conn) ∈ (broadcastRun [1, 2, 3] none (fun w => decide (w ≠ 2))).1 ∧
    (3 : Conn) ∈ (broadcastRun [1, 2, 3] none (fun w => decide (w ≠ 2))).1 ∧
    (broadcastRun [1, 2, 3] none (fun w => decide (w ≠ 2))).2 =
      [1, 3].filter (fun _ => true) :=
  ⟨(C7_broadcast_single_failure [1, 2, 3] (fun w => decide (w ≠ 2)) 2
      (by decide) (by decide) (by decide)).2.1,
   (C7_broadcast_single_failure [1, 2, 3] (fun w => decide (w ≠ 2)) 2
      (by decide) (by decide) (by decide)).1 1 (by decide) (by decide),
   (C7_broadcast_single_failure [1, 2, 3] (fun w => decide (w ≠ 2)) 2
      (by decide) (by decide) (by decide)).1 3 (by decide) (by decide),
   by
    have h := (C7_broadcast_single_failure [1, 2, 3] (fun w => decide (w ≠ 2)) 2
      (by decide) (by decide) (by decide)).2.2
    rw [h]
    decide⟩

/-- A broadcast call recorded as (room, excluded connection). -/
abbrev BroadcastCall := String × Option Conn

/-- The publish decision of the HTTP patches endpoint (`http_patches`,
cells.py lines 318-328): on a non-empty applied list, broadcast to the
workspace room with the default `exclude=None`. -/
def httpPatchesBroadcast {α : Type} (workspaceId : String) (applied : List α) :
    Option BroadcastCall :=
  if applied.isEmpty then none else some (workspaceId, none)

/-- The publish decision of the WebSocket handler (`_handle_batch_patch`,
websocket.py lines 288-295): on a non-empty applied list, broadcast to the
workspace room with `exclude=websocket` — the sending connection. -/
def wsBatchPatchBroadcast {α : Type} (workspaceId : String) (applied : List α)
    (senderWs : Conn) : Option BroadcastCall :=
  if applied.isEmpty then none else some (workspaceId, some senderWs)

/-- C8 (amended): whenever the applied result is non-empty a `batch_patch`
event is published to the room, but the two entry points differ: the HTTP
patches endpoint excludes no connection, so every healthy connection —
including every connection of the acting user — receives the event, while
the WebSocket batch-patch handler excludes the sending connection, so every
healthy connection other than the actor's sending socket receives the event
and the sending socket does not. -/
theorem C8_batch_patch_publish {α : Type} (workspaceId : String) (applied : List α)
    (senderWs : Conn) (room : List Conn) (ok : Conn → Bool)
    (hne : applied ≠ []) :
    httpPatchesBroadcast workspaceId applied = some (workspaceId, none) ∧
    (∀ w ∈ room, ok w = true → w ∈ (broadcastRun room none ok).1) ∧
    wsBatchPatchBroadcast workspaceId applied senderWs =
      some (workspaceId, some senderWs) ∧
    (∀ w ∈ room, w ≠ senderWs → ok w = true →
      w ∈ (broadcastRun room (some senderWs) ok).1) ∧
    senderWs ∉ (broadcastRun room (some senderWs) ok).1 := by
  have hne' : ¬ applied.isEmpty := by
    cases applied with
    | nil => exact absurd rfl hne
    | cons a l => simp
  refine ⟨?_, ?_, ?_, ?_, ?_⟩
  · unfold httpPatchesBroadcast
    rw [if_neg hne']
  · intro w hw hok
    unfold broadcastRun
    rw [broadcastPass_eq]
    exact List.mem_filter.mpr ⟨hw, by simp [hok]⟩
  · unfold wsBatchPatchBroadcast
    rw [if_neg hne']
  · intro w hw hne2 hok
    unfold broadcastRun
    rw [broadcastPass_eq]
    refine List.mem_filter.mpr ⟨hw, ?_⟩
    simp only [Bool.and_eq_true, decide_eq_true_eq]
    refine ⟨?_, hok⟩
    intro hcontra
    exact hne2 (Option.some.inj hcontra).symm
  · intro hf
    unfold broadcastRun at hf
    rw [broadcastPass_eq] at hf
    have := (List.mem_filter.mp hf).2
    simp at this

theorem C8_witness :
    httpPatchesBroadcast "w1" [(0, 0)] = some ("w1", none) ∧
    (1 : Conn) ∈ (broadcastRun [1, 2] none (fun _ => true)).1 ∧
    wsBatchPatchBroadcast "w1" [(0, 0)] 1 = some ("w1", some 1) ∧
    (2 : Conn) ∈ (broadcastRun [1, 2] (some 1) (fun _ => true)).1 ∧
    (1 : Conn) ∉ (broadcastRun [1, 2] (some 1) (fun _ => true)).1 :=
  ⟨(C8_batch_patch_publish "w1" [(0, 0)] 1 [1, 2] (fun _ => true) (by decide)).1,
   (C8_batch_patch_publish "w1" [(0, 0)] 1 [1, 2] (fun _ => true) (by decide)).2.1
     1 (by decide) rfl,
   (C8_batch_patch_publish "w1" [(0, 0)] 1 [1, 2] (fun _ => true) (by decide)).2.2.1,
   (C8_batch_patch_publish "w1" [(0, 0)] 1 [1, 2] (fun _ => true) (by decide)).2.2.2.1
     2 (by decide) (by decide) rfl,
   (C8_batch_patch_publish "w1" [(0, 0)] 1 [1, 2] (fun _ => true) (by decide)).2.2.2.2⟩

/-- C8 counterexample: through the WebSocket batch-patch handler the event
is published with the sending connection excluded, so a connection of the
acting user that is in the room does not receive the event — the claim's
"no subscriber excluded, every connection of the acting user receives it"
fails on this path. -/
theorem C8_counterexample :
    wsBatchPatchBroadcast "w1" [(0, 0)] 1 = some ("w1", some 1) ∧
    (1 : Conn) ∈ [1, 2] ∧
    (broadcastRun [1, 2] (some 1) (fun _ => true)).1 = [2] := by
  refine ⟨by decide, by decide, by decide⟩

end OpenSpace
